import Mathlib

/-!
Shallow embedding of the zk-schnorr signature library (Rust sources under
src/src: key.rs, signature.rs, batch.rs, errors.rs; the group and transcript
adapters are external per the spec, and serialization.rs / transcript.rs are
declared in lib.rs but absent from the provided sources, so those parts are
modelled from the spec).

The external Ristretto group is modelled as the additive group of integers
modulo the (prime) group order, with scalars in the same field, a canonical
32-byte little-endian compression, and a decompression that fails exactly on
byte strings whose little-endian value is not a canonical residue.
-/

namespace ZkSchnorr

/-- Little-endian byte decoding of a byte list. -/
def bytesToNatLE : List Nat → Nat
  | [] => 0
  | b :: bs => b + 256 * bytesToNatLE bs

/-- Little-endian byte encoding of a natural number into exactly k bytes. -/
def natToBytesLE : Nat → Nat → List Nat
  | 0, _ => []
  | k + 1, n => (n % 256) :: natToBytesLE k (n / 256)

theorem natToBytesLE_length (k n : Nat) : (natToBytesLE k n).length = k := by
  induction k generalizing n with
  | zero => rfl
  | succ k ih => simp [natToBytesLE, ih]

theorem bytesToNatLE_natToBytesLE (k n : Nat) (h : n < 256 ^ k) :
    bytesToNatLE (natToBytesLE k n) = n := by
  induction k generalizing n with
  | zero =>
    simp [natToBytesLE, bytesToNatLE]
    omega
  | succ k ih =>
    have hdiv : n / 256 < 256 ^ k := by
      rw [Nat.div_lt_iff_lt_mul (by norm_num)]
      calc n < 256 ^ (k + 1) := h
        _ = 256 ^ k * 256 := by ring
    simp only [natToBytesLE, bytesToNatLE, ih (n / 256) hdiv]
    omega

/-- The order of the Ristretto group (prime ℓ of curve25519). -/
def ell : Nat := 7237005577332262213973186563042994240857116359379907606001950938285454250989

theorem ell_pos : 0 < ell := by decide

theorem ell_lt : ell < 256 ^ 32 := by decide

instance : NeZero ell := ⟨by decide⟩

/-- A scalar of the Ristretto scalar field (external algebra library). -/
abbrev Scalar : Type := ZMod ell

/-- A point of the (prime-order, cyclic) Ristretto group, modelled additively;
scalar multiplication is field multiplication. -/
abbrev Point : Type := ZMod ell

/-- The canonical base point of the group (a fixed generator). -/
def RISTRETTO_BASEPOINT_POINT : Point := 1

/-- A compressed Ristretto point: exactly 32 bytes (a newtype over a byte
array in the external library). -/
abbrev CompressedRistretto : Type := { l : List Nat // l.length = 32 }

/-- Compression of a point into its canonical 32-byte encoding. -/
def Point.compress (p : Point) : CompressedRistretto :=
  ⟨natToBytesLE 32 p.val, natToBytesLE_length 32 p.val⟩

/-- Fallible decompression: succeeds exactly on encodings whose little-endian
value is a canonical residue, failing on every other 32-byte string. -/
def CompressedRistretto.decompress (c : CompressedRistretto) : Option Point :=
  if bytesToNatLE c.val < ell then some ((bytesToNatLE c.val : Nat) : ZMod ell) else none

theorem decompress_compress (p : Point) :
    CompressedRistretto.decompress (Point.compress p) = some p := by
  have hval : p.val < ell := ZMod.val_lt p
  have hrt : bytesToNatLE (natToBytesLE 32 p.val) = p.val :=
    bytesToNatLE_natToBytesLE 32 p.val (lt_trans hval ell_lt)
  simp only [CompressedRistretto.decompress, Point.compress, hrt, if_pos hval]
  exact congrArg some (ZMod.natCast_rightInverse p)

/-- Error type of the library (errors.rs): exactly two kinds. -/
inductive ZkSchnorrError : Type where
  | InvalidSignature : ZkSchnorrError
  | InvalidBatch : ZkSchnorrError
deriving DecidableEq

/-- Verification key (key.rs): two compressed Ristretto points. -/
structure VerificationKey : Type where
  g : CompressedRistretto
  h : CompressedRistretto
deriving DecidableEq

/-- VerificationKey::new (key.rs). -/
def VerificationKey.new (g h : CompressedRistretto) : VerificationKey := ⟨g, h⟩

/-- VerificationKey::from_secret_decompressed (key.rs): r * RISTRETTO_BASEPOINT_POINT. -/
def VerificationKey.from_secret_decompressed (r : Scalar) : Point :=
  r * RISTRETTO_BASEPOINT_POINT

/-- VerificationKey::from_secret (key.rs): g = r * B compressed, h = privkey * g compressed. -/
def VerificationKey.from_secret (privkey r : Scalar) : VerificationKey :=
  let g := VerificationKey.from_secret_decompressed r
  let h := privkey * g
  ⟨Point.compress g, Point.compress h⟩

/-- VerificationKey::to_bytes (key.rs): bytes of g then bytes of h. -/
def VerificationKey.to_bytes (k : VerificationKey) : List Nat :=
  k.g.val ++ k.h.val

/-- VerificationKey::from_bytes (key.rs): rejects length other than 64 with
InvalidSignature; otherwise splits into two 32-byte halves with no
decompression attempt. -/
def VerificationKey.from_bytes (bytes : List Nat) : Except ZkSchnorrError VerificationKey :=
  if h : bytes.length = 64 then
    .ok ⟨⟨bytes.take 32, by simp [h]⟩, ⟨bytes.drop 32, by simp [h]⟩⟩
  else
    .error .InvalidSignature

/-- Modelled from the spec: the Fiat-Shamir transcript adapter (merlin and the
TranscriptProtocol extension in transcript.rs are not under src/). A transcript
is the ordered list of absorbed labelled byte strings; challenge derivation is
a deterministic function of the whole state, which is all the protocol
requires (domain-separated, append-only absorption). -/
structure Transcript : Type where
  items : List (List Nat × List Nat)
deriving DecidableEq

/-- Transcript::new(label): a fresh transcript carrying its domain label. -/
def Transcript.new (label : List Nat) : Transcript := ⟨[(label, [])]⟩

/-- Transcript::append_message(label, message). -/
def Transcript.append_message (t : Transcript) (label message : List Nat) : Transcript :=
  ⟨t.items ++ [(label, message)]⟩

/-- Modelled from the spec: TranscriptProtocol::zkschnorr_domain_sep
(transcript.rs is not under src/): absorbs a fixed protocol tag. -/
def Transcript.zkschnorr_domain_sep (t : Transcript) : Transcript :=
  t.append_message [100, 111, 109] [122, 107, 115, 99, 104, 110, 111, 114, 114]

/-- Modelled from the spec: TranscriptProtocol::append_point(label, point):
absorbs the 32-byte compressed encoding under the label. -/
def Transcript.append_point (t : Transcript) (label : List Nat)
    (p : CompressedRistretto) : Transcript :=
  t.append_message label p.val

/-- Deterministic stand-in for the transcript hash: folds the absorbed items
into a natural number. -/
def transcriptDigest (t : Transcript) : Nat :=
  t.items.foldl
    (fun a item =>
      (a * 1000003 + item.1.foldl (fun x b => x * 257 + b + 1) 1) * 1000003 +
        item.2.foldl (fun x b => x * 257 + b + 1) 1)
    0

/-- Modelled from the spec: TranscriptProtocol::challenge_scalar(label):
derives a scalar deterministically from the state and the label. -/
def Transcript.challenge_scalar (t : Transcript) (label : List Nat) : Scalar :=
  ((transcriptDigest (t.append_message label [])) : ZMod ell)

/-- A Schnorr signature (signature.rs): response scalar s and compressed
nonce commitment R. -/
structure Signature : Type where
  s : Scalar
  R : CompressedRistretto
deriving DecidableEq

/-- The challenge derivation shared by sign and verify (signature.rs):
domain separation, then points G, H, R, then the challenge. -/
def schnorrChallenge (t : Transcript) (pubkey : VerificationKey)
    (R : CompressedRistretto) : Scalar :=
  ((((t.zkschnorr_domain_sep).append_point [71] pubkey.g).append_point [72]
      pubkey.h).append_point [82] R).challenge_scalar
    [99, 104, 97, 108, 108, 101, 110, 103, 101]

/-- Signature::sign (signature.rs). The ephemeral nonce drawn from the
transcript-seeded RNG is passed explicitly. The source unwraps the
decompression of pubkey.g; the none result models that panic. -/
def Signature.sign (t : Transcript) (pubkey : VerificationKey) (privkey : Scalar)
    (nonce : Scalar) : Option Signature :=
  match CompressedRistretto.decompress pubkey.g with
  | none => none
  | some gpt =>
    let R := Point.compress (nonce * gpt)
    let c := schnorrChallenge t pubkey R
    some ⟨nonce + c * privkey, R⟩

/-- One verification equation as passed to BatchVerification::append
(batch.rs): the basepoint scalar plus the dynamic scalar and point lists. -/
structure Equation : Type where
  basepointScalar : Scalar
  dynScalars : List Scalar
  dynPoints : List (Option Point)
deriving DecidableEq

/-- The documented caller contract of append (batch.rs): the points list
carries the basepoint entry first, so it is one longer than the dynamic
scalar list. -/
def Equation.balanced (e : Equation) : Prop :=
  e.dynPoints.length = e.dynScalars.length + 1

instance (e : Equation) : Decidable e.balanced := by
  unfold Equation.balanced; infer_instance

/-- Signature::verify_batched (signature.rs): recompute the challenge and
produce the linear-combination equation (-s)·g + 1·R + c·h handed to the
verifier via append. -/
def Signature.verify_batched (sig : Signature) (t : Transcript)
    (pubkey : VerificationKey) : Equation :=
  let c := schnorrChallenge t pubkey sig.R
  ⟨-sig.s, [1, c],
    [CompressedRistretto.decompress pubkey.g,
     CompressedRistretto.decompress sig.R,
     CompressedRistretto.decompress pubkey.h]⟩

/-- Collecting an Option list (the collect over Option in the external
multiscalar multiplication): some of the list iff every entry is some. -/
def collectOptions : List (Option Point) → Option (List Point)
  | [] => some []
  | none :: _ => none
  | some p :: rest => (collectOptions rest).map (fun ps => p :: ps)

/-- Weighted sum of zipped scalar/point lists. -/
def msmZip (ss : List Scalar) (ps : List Point) : Point :=
  ((ss.zip ps).map (fun q => q.1 * q.2)).sum

/-- RistrettoPoint::optional_multiscalar_mul (external): none if any point is
none, else the weighted sum of the zipped pairs. -/
def optionalMSM (ss : List Scalar) (ps : List (Option Point)) : Option Point :=
  (collectOptions ps).map (fun l => msmZip ss l)

/-- SingleVerifier::append (batch.rs): prepend the basepoint scalar, run the
multiscalar multiplication, and overwrite the stored result. -/
def SingleVerifier.checkEq (e : Equation) : Except ZkSchnorrError Unit :=
  match optionalMSM (e.basepointScalar :: e.dynScalars) e.dynPoints with
  | none => .error .InvalidSignature
  | some p => if p = 0 then .ok () else .error .InvalidSignature

/-- SingleVerifier::verify (batch.rs) run on the sequence of append calls the
closure performs: the result starts as InvalidSignature and each append
overwrites it entirely. -/
def SingleVerifier.runAppends (l : List Equation) : Except ZkSchnorrError Unit :=
  l.foldl (fun _ e => SingleVerifier.checkEq e) (.error .InvalidSignature)

/-- Signature::verify (signature.rs): SingleVerifier::verify of a closure that
performs exactly one verify_batched append. -/
def Signature.verify (sig : Signature) (t : Transcript)
    (pubkey : VerificationKey) : Except ZkSchnorrError Unit :=
  SingleVerifier.runAppends [sig.verify_batched t pubkey]

/-- Signature::transcript_for_message (signature.rs): a transcript labelled
"zkschnorr.sign_message" with the message absorbed under the caller label. -/
def Signature.transcript_for_message (label message : List Nat) : Transcript :=
  (Transcript.new [122, 107, 115, 99, 104, 110, 111, 114, 114, 46, 115, 105,
    103, 110]).append_message label message

/-- Signature::sign_message (signature.rs). -/
def Signature.sign_message (label message : List Nat) (pubkey : VerificationKey)
    (privkey : Scalar) (nonce : Scalar) : Option Signature :=
  Signature.sign (Signature.transcript_for_message label message) pubkey privkey nonce

/-- Signature::verify_message (signature.rs). -/
def Signature.verify_message (sig : Signature) (label message : List Nat)
    (pubkey : VerificationKey) : Except ZkSchnorrError Unit :=
  sig.verify (Signature.transcript_for_message label message) pubkey

/-- Modelled from the spec: Signature::to_bytes (serialization.rs is not under
src/): 32-byte scalar encoding of s followed by the 32 bytes of R. -/
def Signature.to_bytes (sig : Signature) : List Nat :=
  natToBytesLE 32 sig.s.val ++ sig.R.val

/-- Modelled from the spec: Signature::from_bytes (serialization.rs is not
under src/): rejects length other than 64 (the error type in errors.rs has
only the InvalidSignature and InvalidBatch kinds, and the examples propagate
the error as ZkSchnorrError, so the length failure is InvalidSignature);
otherwise splits with no content validation. -/
def Signature.from_bytes (bytes : List Nat) : Except ZkSchnorrError Signature :=
  if h : bytes.length = 64 then
    .ok ⟨((bytesToNatLE (bytes.take 32) : Nat) : ZMod ell), ⟨bytes.drop 32, by simp [h]⟩⟩
  else
    .error .InvalidSignature

/-- BatchVerifier state (batch.rs): accumulated weighted scalars and points.
The rng is modelled by passing each drawn random weight to append
explicitly. -/
structure BatchVerifier : Type where
  dyn_weights : List Scalar
  dyn_points : List (Option Point)
deriving DecidableEq

/-- BatchVerifier::new (batch.rs). -/
def BatchVerifier.new : BatchVerifier := ⟨[], []⟩

/-- BatchVerifier::append (batch.rs) with the random factor r made explicit:
pushes r * basepoint_scalar, then every dynamic scalar multiplied by r, then
the points unweighted. -/
def BatchVerifier.append (st : BatchVerifier) (r : Scalar) (e : Equation) :
    BatchVerifier :=
  ⟨st.dyn_weights ++ (r * e.basepointScalar) :: e.dynScalars.map (fun s => r * s),
   st.dyn_points ++ e.dynPoints⟩

/-- BatchVerifier::verify (batch.rs): empty accumulator succeeds; otherwise
one multiscalar multiplication, failing with InvalidBatch on a missing point
or a non-identity result. -/
def BatchVerifier.verify (st : BatchVerifier) : Except ZkSchnorrError Unit :=
  if st.dyn_weights = [] ∧ st.dyn_points = [] then
    .ok ()
  else
    match optionalMSM st.dyn_weights st.dyn_points with
    | none => .error .InvalidBatch
    | some p => if p = 0 then .ok () else .error .InvalidBatch

/-- A run of the batch verifier: append the given weighted equations in order
onto a fresh accumulator and resolve. -/
def BatchVerifier.run (l : List (Scalar × Equation)) : Except ZkSchnorrError Unit :=
  BatchVerifier.verify (l.foldl (fun st p => st.append p.1 p.2) BatchVerifier.new)

/-- The weighted scalar block one BatchVerifier append call pushes: the
weighted basepoint scalar followed by the weighted dynamic scalars. -/
def blockW (p : Scalar × Equation) : List Scalar :=
  p.1 * p.2.basepointScalar :: p.2.dynScalars.map (fun s => p.1 * s)

/-- The contribution of one weighted equation to the batch total: none when a
point of the equation is missing, else its weighted partial sum. -/
def eqContrib (p : Scalar × Equation) : Option Point :=
  (collectOptions p.2.dynPoints).map (fun ps => msmZip (blockW p) ps)

/-! ## Helper lemmas -/

theorem checkEq_three (b c1 c2 : Scalar) (p q r : Option Point) :
    SingleVerifier.checkEq ⟨b, [c1, c2], [p, q, r]⟩ =
      match p, q, r with
      | some P, some Q, some R =>
          if b * P + c1 * Q + c2 * R = 0 then .ok () else .error .InvalidSignature
      | _, _, _ => .error .InvalidSignature := by
  rcases p with _ | P <;> rcases q with _ | Q <;> rcases r with _ | R <;>
    simp [SingleVerifier.checkEq, optionalMSM, collectOptions, msmZip, add_assoc]

theorem verify_eq_checkEq (sig : Signature) (t : Transcript) (pk : VerificationKey) :
    Signature.verify sig t pk =
      SingleVerifier.checkEq
        ⟨-sig.s, [1, schnorrChallenge t pk sig.R],
         [CompressedRistretto.decompress pk.g, CompressedRistretto.decompress sig.R,
          CompressedRistretto.decompress pk.h]⟩ := rfl

theorem checkEq_cases (e : Equation) :
    SingleVerifier.checkEq e = .ok () ∨
    SingleVerifier.checkEq e = .error .InvalidSignature := by
  unfold SingleVerifier.checkEq
  rcases optionalMSM (e.basepointScalar :: e.dynScalars) e.dynPoints with _ | p
  · right; rfl
  · by_cases hz : p = 0 <;> simp [hz]

theorem verify_cases (sig : Signature) (t : Transcript) (pk : VerificationKey) :
    Signature.verify sig t pk = .ok () ∨
    Signature.verify sig t pk = .error .InvalidSignature := by
  rw [verify_eq_checkEq]; exact checkEq_cases _

theorem batchVerify_cases (st : BatchVerifier) :
    BatchVerifier.verify st = .ok () ∨
    BatchVerifier.verify st = .error .InvalidBatch := by
  unfold BatchVerifier.verify
  split
  · left; rfl
  · rcases optionalMSM st.dyn_weights st.dyn_points with _ | p
    · right; rfl
    · by_cases hz : p = 0 <;> simp [hz]

theorem vk_roundtrip (k : VerificationKey) :
    VerificationKey.from_bytes (VerificationKey.to_bytes k) = .ok k := by
  obtain ⟨⟨gb, hg⟩, ⟨hb, hh⟩⟩ := k
  have hlen : (gb ++ hb).length = 64 := by simp [hg, hh]
  have ht : (gb ++ hb).take 32 = gb := by rw [← hg]; exact List.take_left gb hb
  have hd : (gb ++ hb).drop 32 = hb := by rw [← hg]; exact List.drop_left gb hb
  simp [VerificationKey.from_bytes, VerificationKey.to_bytes, hlen, ht, hd]

theorem sig_roundtrip (sig : Signature) :
    Signature.from_bytes (Signature.to_bytes sig) = .ok sig := by
  obtain ⟨s, ⟨Rb, hR⟩⟩ := sig
  have hsl : (natToBytesLE 32 s.val).length = 32 := natToBytesLE_length 32 s.val
  have hlen : (natToBytesLE 32 s.val ++ Rb).length = 64 := by simp [hsl, hR]
  have ht : (natToBytesLE 32 s.val ++ Rb).take 32 = natToBytesLE 32 s.val := by
    rw [← hsl]; exact List.take_left _ _
  have hd : (natToBytesLE 32 s.val ++ Rb).drop 32 = Rb := by
    rw [← hsl]; exact List.drop_left _ _
  have hrt : bytesToNatLE (natToBytesLE 32 s.val) = s.val :=
    bytesToNatLE_natToBytesLE 32 s.val (lt_trans (ZMod.val_lt s) ell_lt)
  simp [Signature.from_bytes, Signature.to_bytes, hlen, ht, hd, hrt,
    ZMod.natCast_rightInverse s]

theorem runAppends_closed (init : Except ZkSchnorrError Unit) (l : List Equation) :
    l.foldl (fun _ e => SingleVerifier.checkEq e) init =
      match l.getLast? with
      | none => init
      | some e => SingleVerifier.checkEq e := by
  induction l generalizing init with
  | nil => rfl
  | cons a rest ih =>
    cases rest with
    | nil => rfl
    | cons b t =>
      rw [List.foldl_cons, ih (SingleVerifier.checkEq a), List.getLast?_cons_cons]
      rcases h : (b :: t).getLast? with _ | e
      · simp [List.getLast?] at h
      · rfl

/-! ## Claim theorems -/

/-- C6: decoding the encoding of a verification key returns it unchanged, and
likewise for a signature, with structural equality on the components. -/
theorem C6_decode_encode_roundtrip (k : VerificationKey) (sig : Signature) :
    VerificationKey.from_bytes (VerificationKey.to_bytes k) = .ok k ∧
    Signature.from_bytes (Signature.to_bytes sig) = .ok sig :=
  ⟨vk_roundtrip k, sig_roundtrip sig⟩

/-- C7: from_secret builds the key whose g is the compression of
r * basepoint and whose h is the compression of x * (r * basepoint); the
construction is total and both components decompress back. -/
theorem C7_from_secret_components (x r : Scalar) :
    (VerificationKey.from_secret x r).g = Point.compress (r * RISTRETTO_BASEPOINT_POINT) ∧
    (VerificationKey.from_secret x r).h =
      Point.compress (x * (r * RISTRETTO_BASEPOINT_POINT)) ∧
    CompressedRistretto.decompress (VerificationKey.from_secret x r).g =
      some (r * RISTRETTO_BASEPOINT_POINT) ∧
    CompressedRistretto.decompress (VerificationKey.from_secret x r).h =
      some (x * (r * RISTRETTO_BASEPOINT_POINT)) :=
  ⟨rfl, rfl, decompress_compress _, decompress_compress _⟩

/-- C8: VerificationKey::from_bytes succeeds on every 64-byte input,
splitting it into the two compressed halves with no decompression attempt,
and to_bytes of the result returns exactly the input. -/
theorem C8_from_bytes_total (bs : List Nat) (h : bs.length = 64) :
    ∃ k : VerificationKey, VerificationKey.from_bytes bs = .ok k ∧
      k.g.val = bs.take 32 ∧ k.h.val = bs.drop 32 ∧
      VerificationKey.to_bytes k = bs := by
  refine ⟨⟨⟨bs.take 32, by simp [h]⟩, ⟨bs.drop 32, by simp [h]⟩⟩, ?_, rfl, rfl, ?_⟩
  · simp [VerificationKey.from_bytes, h]
  · simp [VerificationKey.to_bytes]

/-- Witness for C8 at the all-zero 64-byte input. -/
theorem C8_witness :
    ∃ k : VerificationKey, VerificationKey.from_bytes (List.replicate 64 0) = .ok k ∧
      k.g.val = (List.replicate 64 0).take 32 ∧
      k.h.val = (List.replicate 64 0).drop 32 ∧
      VerificationKey.to_bytes k = List.replicate 64 0 :=
  C8_from_bytes_total (List.replicate 64 0) (by decide)

/-- C5 amended: wrong-length input to either decoder yields a decode error,
but the error is the InvalidSignature kind itself — the error type has only
the InvalidSignature and InvalidBatch kinds, so no distinct
format-length-mismatch kind exists. -/
theorem C5_wrong_length_error (bs : List Nat) (h : bs.length ≠ 64) :
    VerificationKey.from_bytes bs = .error .InvalidSignature ∧
    Signature.from_bytes bs = .error .InvalidSignature := by
  constructor <;> simp [VerificationKey.from_bytes, Signature.from_bytes, h]

/-- Witness for C5 amended at a 63-byte input. -/
theorem C5_witness :
    VerificationKey.from_bytes (List.replicate 63 0) = .error .InvalidSignature ∧
    Signature.from_bytes (List.replicate 63 0) = .error .InvalidSignature :=
  C5_wrong_length_error (List.replicate 63 0) (by decide)

/-- C5 counterexample: at a concrete 63-byte input the decoders return the
InvalidSignature kind, not a kind distinct from InvalidSignature and
InvalidBatch as the claim states (errors.rs has only those two kinds). -/
theorem C5_counterexample :
    VerificationKey.from_bytes (List.replicate 63 0) =
      .error ZkSchnorrError.InvalidSignature ∧
    Signature.from_bytes (List.replicate 65 0) =
      .error ZkSchnorrError.InvalidSignature := by
  constructor <;> rfl

/-- C10: each SingleVerifier append overwrites the stored result entirely:
the run of a closure performing a list of appends returns the check of the
last equation alone, and the InvalidSignature sentinel when no append ran. -/
theorem C10_single_verifier_overwrites (l : List Equation) :
    SingleVerifier.runAppends l =
      match l.getLast? with
      | none => .error .InvalidSignature
      | some e => SingleVerifier.checkEq e :=
  runAppends_closed _ l

/-- C2: single verification succeeds iff all three compressed elements
decompress and the combination (-s)·g + 1·R + c·h is the identity; every
other outcome is the InvalidSignature error, with no distinction between a
decompression failure and a non-identity result. -/
theorem C2_single_verify_characterization (sig : Signature) (t : Transcript)
    (pk : VerificationKey) :
    (Signature.verify sig t pk = .ok () ↔
      ∃ gp Rp hp : Point,
        CompressedRistretto.decompress pk.g = some gp ∧
        CompressedRistretto.decompress sig.R = some Rp ∧
        CompressedRistretto.decompress pk.h = some hp ∧
        -sig.s * gp + 1 * Rp + schnorrChallenge t pk sig.R * hp = 0) ∧
    (Signature.verify sig t pk = .ok () ∨
      Signature.verify sig t pk = .error .InvalidSignature) := by
  refine ⟨?_, verify_cases sig t pk⟩
  rw [verify_eq_checkEq, checkEq_three]
  rcases hg : CompressedRistretto.decompress pk.g with _ | gp <;>
    rcases hR : CompressedRistretto.decompress sig.R with _ | Rp <;>
      rcases hh : CompressedRistretto.decompress pk.h with _ | hp <;>
        simp only []
  · simp
  · simp
  · simp
  · simp
  · simp
  · simp
  · simp
  · by_cases hz : -sig.s * gp + 1 * Rp + schnorrChallenge t pk sig.R * hp = 0 <;>
      simp [hz]

/-- C4 amended: verify and batch verify surface decompression failures as
verification failures and never crash, but sign unwraps the decompression of
the key component g and so crashes (modelled as none) exactly when g fails to
decompress — including keys reconstructed from arbitrary 64-byte encodings. -/
theorem C4_no_crash_except_sign (t : Transcript) (pk : VerificationKey)
    (x nonce : Scalar) (sig : Signature) (st : BatchVerifier) :
    (Signature.sign t pk x nonce = none ↔
      CompressedRistretto.decompress pk.g = none) ∧
    (Signature.verify sig t pk = .ok () ∨
      Signature.verify sig t pk = .error .InvalidSignature) ∧
    (BatchVerifier.verify st = .ok () ∨
      BatchVerifier.verify st = .error .InvalidBatch) := by
  refine ⟨?_, verify_cases sig t pk, batchVerify_cases st⟩
  unfold Signature.sign
  rcases hg : CompressedRistretto.decompress pk.g with _ | gp <;> simp

/-- C4 counterexample: the key decoded from 64 bytes of 0xff passes decoding,
but signing under it crashes (the unwrap of the failed decompression of g in
Signature::sign), rather than returning a verification failure. -/
theorem C4_counterexample :
    (VerificationKey.from_bytes (List.replicate 64 255)).toOption.map
      (fun k => Signature.sign (Transcript.new [116]) k 1 1) = some none := by
  rfl

/-- C3: the consuming batch verify succeeds on an empty accumulator;
otherwise it succeeds iff every accumulated point is present and the
multiscalar combination of the accumulated pairs is the identity, and every
other outcome is the InvalidBatch error. -/
theorem C3_batch_verify_characterization (st : BatchVerifier) :
    (BatchVerifier.verify st = .ok () ↔
      (st.dyn_weights = [] ∧ st.dyn_points = []) ∨
      ∃ ps : List Point, collectOptions st.dyn_points = some ps ∧
        msmZip st.dyn_weights ps = 0) ∧
    (BatchVerifier.verify st = .ok () ∨
      BatchVerifier.verify st = .error .InvalidBatch) := by
  refine ⟨?_, batchVerify_cases st⟩
  unfold BatchVerifier.verify
  by_cases he : st.dyn_weights = [] ∧ st.dyn_points = []
  · simp [he]
  · rw [if_neg he]
    rcases hc : collectOptions st.dyn_points with _ | ps
    · simp [optionalMSM, hc, he]
    · by_cases hz : msmZip st.dyn_weights ps = 0 <;> simp [optionalMSM, hc, he, hz]

theorem sign_verify_general (t : Transcript) (x r nonce : Scalar) :
    (Signature.sign t (VerificationKey.from_secret x r) x nonce).map
      (fun sig => Signature.verify sig t (VerificationKey.from_secret x r)) =
    some (.ok ()) := by
  have hg : CompressedRistretto.decompress (VerificationKey.from_secret x r).g =
      some (r * RISTRETTO_BASEPOINT_POINT) := decompress_compress _
  have hh : CompressedRistretto.decompress (VerificationKey.from_secret x r).h =
      some (x * (r * RISTRETTO_BASEPOINT_POINT)) := decompress_compress _
  unfold Signature.sign
  rw [hg]
  simp only [Option.map_some]
  refine congrArg some ?_
  beta_reduce
  rw [verify_eq_checkEq, checkEq_three]
  rw [hg, hh, decompress_compress]
  simp only []
  rw [if_pos (by ring)]

/-- C1: for every secret scalar x, randomization scalar r, nonce, label and
message, signing under the key from_secret x r via the message API succeeds
and the produced signature verifies under the same label, message and key. -/
theorem C1_sign_then_verify_message (label message : List Nat) (x r nonce : Scalar) :
    (Signature.sign_message label message (VerificationKey.from_secret x r) x
        nonce).map
      (fun sig =>
        Signature.verify_message sig label message (VerificationKey.from_secret x r)) =
    some (.ok ()) :=
  sign_verify_general (Signature.transcript_for_message label message) x r nonce

theorem foldl_append_state (l : List (Scalar × Equation)) (st : BatchVerifier) :
    l.foldl (fun st p => st.append p.1 p.2) st =
      ⟨st.dyn_weights ++ (l.map blockW).flatten,
       st.dyn_points ++ (l.map (fun p => p.2.dynPoints)).flatten⟩ := by
  induction l generalizing st with
  | nil => simp
  | cons a rest ih =>
    rw [List.foldl_cons, ih]
    simp [BatchVerifier.append, blockW, List.append_assoc]

theorem collectOptions_append (a b : List (Option Point)) :
    collectOptions (a ++ b) =
      (collectOptions a).bind
        (fun xs => (collectOptions b).map (fun ys => xs ++ ys)) := by
  induction a with
  | nil =>
    simp only [List.nil_append, collectOptions, Option.some_bind]
    rcases collectOptions b with _ | ys <;> rfl
  | cons o rest ih =>
    cases o with
    | none => rfl
    | some p =>
      show (collectOptions (rest ++ b)).map (fun ps => p :: ps) =
        ((collectOptions rest).map (fun ps => p :: ps)).bind
          (fun xs => (collectOptions b).map (fun ys => xs ++ ys))
      rw [ih]
      rcases collectOptions rest with _ | xs <;>
        rcases collectOptions b with _ | ys <;> rfl

theorem collectOptions_length (ps : List (Option Point)) (l : List Point)
    (h : collectOptions ps = some l) : l.length = ps.length := by
  induction ps generalizing l with
  | nil =>
    simp only [collectOptions, Option.some.injEq] at h
    subst h; rfl
  | cons o rest ih =>
    cases o with
    | none => simp [collectOptions] at h
    | some p =>
      simp only [collectOptions] at h
      rcases hr : collectOptions rest with _ | xs
      · rw [hr] at h; simp at h
      · rw [hr] at h
        simp only [Option.map_some', Option.some.injEq] at h
        subst h
        simp [ih xs hr]

theorem msmZip_append (s1 s2 : List Scalar) (p1 p2 : List Point)
    (h : s1.length = p1.length) :
    msmZip (s1 ++ s2) (p1 ++ p2) = msmZip s1 p1 + msmZip s2 p2 := by
  unfold msmZip
  rw [List.zip_append h, List.map_append, List.sum_append]

theorem optionalMSM_flatten (l : List (Scalar × Equation))
    (hb : ∀ p ∈ l, p.2.balanced) :
    optionalMSM ((l.map blockW).flatten)
        ((l.map (fun p => p.2.dynPoints)).flatten) =
      (collectOptions (l.map eqContrib)).map List.sum := by
  induction l with
  | nil => simp [optionalMSM, collectOptions, msmZip]
  | cons a rest ih =>
    have hbrest : ∀ p ∈ rest, p.2.balanced := fun p hm => hb p (List.mem_cons_of_mem a hm)
    have hba : a.2.balanced := hb a (List.mem_cons_self a rest)
    simp only [List.map_cons, List.flatten_cons]
    rw [optionalMSM, collectOptions_append]
    rcases hca : collectOptions a.2.dynPoints with _ | xs
    · simp [collectOptions, eqContrib, hca]
    · have hxs : xs.length = (blockW a).length := by
        rw [collectOptions_length a.2.dynPoints xs hca, hba, blockW]
        simp
      have ihr := ih hbrest
      rw [optionalMSM] at ihr
      rcases hcr : collectOptions ((rest.map (fun p => p.2.dynPoints)).flatten)
          with _ | ys
      · rw [hcr] at ihr
        rcases hcc : collectOptions (rest.map eqContrib) with _ | zs
        · simp [collectOptions, eqContrib, hca, hcc, hcr]
        · rw [hcc] at ihr; simp at ihr
      · rw [hcr] at ihr
        rcases hcc : collectOptions (rest.map eqContrib) with _ | zs
        · rw [hcc] at ihr; simp at ihr
        · rw [hcc] at ihr
          simp only [Option.map_some', Option.some.injEq] at ihr
          simp only [collectOptions, eqContrib, hca, hcc, Option.map_some',
            Option.some_bind, Option.some.injEq, List.sum_cons]
          rw [hcr]
          simp only [Option.map_some']
          rw [msmZip_append (blockW a) _ xs ys hxs.symm, ihr]

theorem collect_map_sum (ms : List (Option Point)) :
    (collectOptions ms).map List.sum =
      if none ∈ ms then none
      else some ((ms.map (fun o => o.getD 0)).sum) := by
  induction ms with
  | nil => simp [collectOptions]
  | cons o rest ih =>
    cases o with
    | none => simp [collectOptions]
    | some p =>
      simp only [collectOptions, Option.map_map, List.mem_cons]
      by_cases hn : none ∈ rest
      · rw [if_pos (Or.inr hn)]
        rw [if_pos hn] at ih
        rcases hc : collectOptions rest with _ | zs
        · rfl
        · rw [hc] at ih; simp at ih
      · rw [if_neg (by simp [hn])]
        rw [if_neg hn] at ih
        rcases hc : collectOptions rest with _ | zs
        · rw [hc] at ih; simp at ih
        · rw [hc] at ih
          simp only [Option.map_some', Option.some.injEq] at ih
          simp [Function.comp, ih]

theorem collect_sum_perm {ms ms2 : List (Option Point)} (h : ms.Perm ms2) :
    (collectOptions ms).map List.sum = (collectOptions ms2).map List.sum := by
  rw [collect_map_sum, collect_map_sum]
  by_cases hn : none ∈ ms
  · rw [if_pos hn, if_pos (h.mem_iff.mp hn)]
  · rw [if_neg hn, if_neg (fun hm => hn (h.mem_iff.mpr hm)),
      ((h.map _).sum_eq : _)]

theorem flatten_blockW_nil (l : List (Scalar × Equation)) :
    (l.map blockW).flatten = [] ↔ l = [] := by
  cases l with
  | nil => simp
  | cons a rest => simp [blockW]

/-- C9: with the per-equation random weights fixed, the batch result is
invariant under permuting the order in which the (well-formed, per the
documented append contract) equations were appended. -/
theorem C9_batch_order_invariance (l l2 : List (Scalar × Equation))
    (hperm : l.Perm l2) (hbal : ∀ p ∈ l, p.2.balanced) :
    BatchVerifier.run l = BatchVerifier.run l2 := by
  have hbal2 : ∀ p ∈ l2, p.2.balanced := fun p hm => hbal p (hperm.mem_iff.mpr hm)
  unfold BatchVerifier.run
  rw [foldl_append_state, foldl_append_state]
  simp only [BatchVerifier.new, List.nil_append]
  by_cases hl : l = []
  · subst hl
    rw [hperm.symm.eq_nil]
  · have hl2 : l2 ≠ [] := fun h2 => hl (by rw [h2] at hperm; exact hperm.eq_nil)
    unfold BatchVerifier.verify
    rw [if_neg (fun hc => hl ((flatten_blockW_nil l).mp hc.1)),
      if_neg (fun hc => hl2 ((flatten_blockW_nil l2).mp hc.1)),
      optionalMSM_flatten l hbal, optionalMSM_flatten l2 hbal2,
      collect_sum_perm (hperm.map eqContrib)]

/-- Concrete equations for the C9 witness. -/
def wEqA : Scalar × Equation := (1, ⟨1, [1], [some 1, some 1]⟩)

/-- Concrete equations for the C9 witness. -/
def wEqB : Scalar × Equation := (2, ⟨0, [], [some 0]⟩)

/-- Witness for C9 at a concrete two-equation batch and its swap. -/
theorem C9_witness :
    [wEqA, wEqB].Perm [wEqB, wEqA] ∧ (∀ p ∈ [wEqA, wEqB], p.2.balanced) ∧
    BatchVerifier.run [wEqA, wEqB] = BatchVerifier.run [wEqB, wEqA] :=
  ⟨by decide, by decide,
    C9_batch_order_invariance [wEqA, wEqB] [wEqB, wEqA] (by decide) (by decide)⟩

end ZkSchnorr
